import Mathlib

/-!
Shallow embedding of the agentlayer core (loop.ts, session.ts, agent.ts) and
proofs about its specified behaviour.

Messages are modelled as a role string plus a list of content parts; tool
arguments are kept opaque as strings.  Session entries mirror the two entry
variants of the history DAG.  All definitions are computable so concrete runs
can be evaluated inside proofs.
-/

/-- Opaque serialized tool arguments. -/
abbrev Args := String

/-- A content part of a model message: text, a tool call, or a tool result. -/
inductive ContentPart where
  | text (t : String)
  | toolCall (id name : String) (input : Args)
  | toolResult (callId name output : String)
deriving DecidableEq, Repr

/-- A model-protocol message: a role and a list of content parts. -/
structure ModelMessage where
  role : String
  content : List ContentPart
deriving DecidableEq, Repr

/-- A session history entry: either a persisted message or a compaction marker,
mirroring the two entry variants used by session.ts. -/
inductive SessionEntry where
  | message (id : String) (parentId : Option String) (timestamp : Nat) (msg : ModelMessage)
  | compaction (id : String) (parentId : Option String) (timestamp : Nat)
      (summary : String) (firstKeptId : String)
deriving DecidableEq, Repr

namespace SessionEntry

/-- The entry id. -/
def id : SessionEntry → String
  | .message i _ _ _ => i
  | .compaction i _ _ _ _ => i

/-- The entry parent pointer. -/
def parentId : SessionEntry → Option String
  | .message _ p _ _ => p
  | .compaction _ p _ _ _ => p

/-- The message carried by a message entry, if any. -/
def msg : SessionEntry → Option ModelMessage
  | .message _ _ _ m => some m
  | .compaction _ _ _ _ _ => none

/-- The summary of a compaction entry (empty for message entries). -/
def summary : SessionEntry → String
  | .message _ _ _ _ => ""
  | .compaction _ _ _ s _ => s

/-- The firstKeptId of a compaction entry (empty for message entries). -/
def firstKeptId : SessionEntry → String
  | .message _ _ _ _ => ""
  | .compaction _ _ _ _ k => k

end SessionEntry

/-- Whether an entry is a compaction entry. -/
def isCompaction : SessionEntry → Bool
  | .compaction _ _ _ _ _ => true
  | .message _ _ _ _ => false

/-- The role of the message carried by an entry ("compaction" for compaction
entries); used only to describe concrete runs. -/
def entryRole : SessionEntry → String
  | .message _ _ _ m => m.role
  | .compaction _ _ _ _ _ => "compaction"

/-! ## buildContext (session.ts)

The code builds a Map from id to entry (later insertions overwrite earlier
ones), walks leaf-to-root with a visited set guarding against cycles, reverses
the walk, locates the latest compaction on the path and emits the summary, the
kept prefix from firstKeptId on, and the suffix after the compaction. -/

/-- Map lookup: the JS Map is populated in list order, so a later entry with
the same id overwrites an earlier one; get returns the last occurrence. -/
def indexGet (entries : List SessionEntry) (key : String) : Option SessionEntry :=
  entries.reverse.find? (fun e => e.id == key)

/-- One parent-pointer step: `current.parentId ? index.get(current.parentId)
: undefined`.  A JS empty-string parentId is falsy and stops the walk. -/
def parentLookup (entries : List SessionEntry) (e : SessionEntry) : Option SessionEntry :=
  match e.parentId with
  | none => none
  | some p => if p == "" then none else indexGet entries p

/-- The leaf-to-root walk with the visited-id guard of the source.  The fuel
argument bounds the recursion; `walk_stable` below shows any fuel of at least
`entries.length + 1` computes the fixed point reached by the visited-set
guard, so the fuel is not what terminates the walk on actual inputs. -/
def walk (entries : List SessionEntry) :
    Option SessionEntry → List String → Nat → List SessionEntry
  | _, _, 0 => []
  | none, _, _ => []
  | some e, visited, fuel + 1 =>
    if e.id ∈ visited then []
    else e :: walk entries (parentLookup entries e) (e.id :: visited) fuel

/-- The root-to-leaf path computed by buildContext, with explicit walk fuel. -/
def rootToLeafPathFuel (entries : List SessionEntry) (leafId : Option String)
    (fuel : Nat) : List SessionEntry :=
  match leafId with
  | none => []
  | some lid =>
    if entries.isEmpty then []
    else (walk entries (indexGet entries lid) [] fuel).reverse

/-- The root-to-leaf path computed by buildContext. -/
def rootToLeafPath (entries : List SessionEntry) (leafId : Option String) :
    List SessionEntry :=
  rootToLeafPathFuel entries leafId (entries.length + 1)

/-- Split a path at its latest compaction entry: returns the prefix before it,
the compaction, and the suffix after it; none when the path has no compaction.
This mirrors the source's downward scan for the most recent compaction index
followed by its two loops over `path[0..ci)` and `path[ci+1..]`. -/
def lastCompactionSplit :
    List SessionEntry → Option (List SessionEntry × SessionEntry × List SessionEntry)
  | [] => none
  | e :: rest =>
    match lastCompactionSplit rest with
    | some (pre, c, suf) => some (e :: pre, c, suf)
    | none => if isCompaction e then some ([], e, rest) else none

/-- The kept-prefix loop of buildContext: the foundFirstKept flag is set when
an entry's id equals firstKeptId; from then on message entries are emitted. -/
def keptMessages (fKept : String) : List SessionEntry → Bool → List ModelMessage
  | [], _ => []
  | e :: rest, found =>
    let found' := found || e.id == fKept
    (if found' then (e.msg).toList else []) ++ keptMessages fKept rest found'

/-- The synthetic user message emitted for a compaction summary. -/
def summaryMessage (c : SessionEntry) : ModelMessage :=
  ⟨"user", [ContentPart.text ("<summary>" ++ c.summary ++ "</summary>")]⟩

/-- Emission over a computed path: latest compaction (if any) yields the
synthetic summary, the kept prefix and the suffix; otherwise every message
entry on the path in order. -/
def buildCore (path : List SessionEntry) : List ModelMessage :=
  match lastCompactionSplit path with
  | some (pre, c, suf) =>
    summaryMessage c :: keptMessages c.firstKeptId pre false ++ suf.filterMap SessionEntry.msg
  | none => path.filterMap SessionEntry.msg

/-- buildContext with explicit walk fuel. -/
def buildContextFuel (entries : List SessionEntry) (leafId : Option String)
    (fuel : Nat) : List ModelMessage :=
  buildCore (rootToLeafPathFuel entries leafId fuel)

/-- buildContext(entries, leafId) of session.ts. -/
def buildContext (entries : List SessionEntry) (leafId : Option String) :
    List ModelMessage :=
  buildCore (rootToLeafPath entries leafId)

example :
    buildContext
      [SessionEntry.message "a" none 0 ⟨"user", [ContentPart.text "hi"]⟩,
       SessionEntry.message "b" (some "a") 1 ⟨"assistant", [ContentPart.text "yo"]⟩]
      (some "b")
    = [⟨"user", [ContentPart.text "hi"]⟩, ⟨"assistant", [ContentPart.text "yo"]⟩] := by
  decide

example :
    buildContext
      [SessionEntry.message "a" (some "b") 0 ⟨"user", [ContentPart.text "m"]⟩,
       SessionEntry.message "b" (some "a") 1 ⟨"user", [ContentPart.text "n"]⟩]
      (some "b")
    = [⟨"user", [ContentPart.text "m"]⟩, ⟨"user", [ContentPart.text "n"]⟩] := by
  decide

example :
    buildContext
      [SessionEntry.message "a" none 0 ⟨"user", [ContentPart.text "old"]⟩,
       SessionEntry.message "c" (some "a") 1 ⟨"user", [ContentPart.text "kept"]⟩,
       SessionEntry.compaction "k" (some "c") 2 "S" "c",
       SessionEntry.message "e" (some "k") 3 ⟨"user", [ContentPart.text "new"]⟩]
      (some "e")
    = [⟨"user", [ContentPart.text "<summary>S</summary>"]⟩,
       ⟨"user", [ContentPart.text "kept"]⟩,
       ⟨"user", [ContentPart.text "new"]⟩] := by
  decide

/-! ## The turn loop (loop.ts)

The loop is a bidirectional generator.  We embed it as a deterministic state
machine: the model transport is an oracle `script` indexed by the model-call
number; the driver's tool-call decisions are an oracle `decide` indexed by the
number of tool_call yields so far; the steering and follow-up queues are
oracles indexed by the number of times the respective callback has been
invoked.  Each yielded event records the user messages drained from the queues
since the previous yield — exactly the messages sitting in the session's
pendingUserMessages buffer when gen.next resolves with that event. -/

/-- The canonical steering deny reason of loop.ts. -/
def STEERING_DENY_REASON : String := "Skipped: user sent a new message"

/-- A registered tool: a name and an execute function.  `Except.error m`
models `execute` throwing an error whose message is `m`. -/
structure Tool where
  name : String
  exec : Args → Except String String

/-- A tool-call part collected from the model stream. -/
structure ToolCallPart where
  toolCallId : String
  toolName : String
  input : Args
deriving DecidableEq, Repr

/-- The driver's decision for a tool call: no decision, deny with a reason, or
substitute arguments. -/
inductive ToolCallDecision where
  | undef
  | deny (reason : String)
  | args (a : Args)
deriving DecidableEq, Repr

/-- One model round-trip as observed on the stream: text deltas, tool-call
parts, usage and finish reason. -/
structure ModelResponse where
  textDeltas : List String
  toolCalls : List ToolCallPart
  usageIn : Nat
  usageOut : Nat
  finishReason : String

/-- An event yielded by the loop generator. -/
inductive LoopEvent where
  | textDelta (delta : String)
  | message (message : ModelMessage)
  | toolCall (callId name : String) (args : Args)
  | toolResult (callId name : String) (result : String) (isError : Bool)
      (message : ModelMessage)
  | step (usageIn usageOut : Nat) (finishReason : String)
deriving DecidableEq, Repr

/-- One yield of the generator together with the user messages the session's
queue callbacks drained since the previous yield. -/
structure YieldItem where
  drained : List ModelMessage
  event : LoopEvent
deriving DecidableEq, Repr

/-- Tool lookup: `new Map(tools.map(t => [t.name, t]))` keeps the last tool
with a given name, so lookup searches the reversed list. -/
def findTool (tools : List Tool) (name : String) : Option Tool :=
  tools.reverse.find? (fun t => t.name == name)

/-- A pending call after Phase 1: the call, the looked-up tool, and the
decision recorded for it. -/
structure Pending where
  tc : ToolCallPart
  tool : Option Tool
  decision : ToolCallDecision

/-- The outcome of Phase 1: the pending list, the tool_call events yielded,
the deferred steering messages (when drain point 2 fired), and the advanced
steering / decision counters. -/
structure Phase1Out where
  pending : List Pending
  events : List LoopEvent
  deferred : Option (List ModelMessage)
  s : Nat
  d : Nat

/-- Phase 1 of a step: iterate the collected tool calls; before each call
invoke getSteeringMessages (when provided); a non-empty drain defers the
messages and auto-denies this and every remaining call with the canonical
reason; otherwise an unknown tool records decision undef without yielding,
and a known tool yields tool_call and records the driver's decision. -/
def phase1 (tools : List Tool) (hasSteer : Bool) (steer : Nat → List ModelMessage)
    (dec : Nat → ToolCallDecision) : Nat → Nat → List ToolCallPart → Phase1Out
  | s, d, [] => ⟨[], [], none, s, d⟩
  | s, d, tc :: rest =>
    if hasSteer && !(steer s).isEmpty then
      ⟨(tc :: rest).map
          (fun r => ⟨r, findTool tools r.toolName, ToolCallDecision.deny STEERING_DENY_REASON⟩),
        [], some (steer s), s + 1, d⟩
    else
      let s' := if hasSteer then s + 1 else s
      match findTool tools tc.toolName with
      | none =>
        let out := phase1 tools hasSteer steer dec s' d rest
        { out with pending := ⟨tc, none, ToolCallDecision.undef⟩ :: out.pending }
      | some t =>
        let out := phase1 tools hasSteer steer dec s' (d + 1) rest
        { out with
            pending := ⟨tc, some t, dec d⟩ :: out.pending,
            events := LoopEvent.toolCall tc.toolCallId tc.toolName tc.input :: out.events }

/-- Phase 2 for one pending call: (output, isError, executed).  The third
component instruments whether t.execute was actually invoked.  Order matters:
an unknown tool produces "Tool not found" before the deny decision is even
consulted, exactly as in the source. -/
def phase2 (p : Pending) : String × Bool × Bool :=
  match p.tool with
  | none => ("Tool not found: " ++ p.tc.toolName, true, false)
  | some t =>
    match p.decision with
    | ToolCallDecision.deny r => (r, true, false)
    | ToolCallDecision.args a =>
      match t.exec a with
      | Except.ok o => (o, false, true)
      | Except.error m => (m, true, true)
    | ToolCallDecision.undef =>
      match t.exec p.tc.input with
      | Except.ok o => (o, false, true)
      | Except.error m => (m, true, true)

/-- The tool-role message synthesized for one tool result. -/
def toolResultMessage (tc : ToolCallPart) (output : String) : ModelMessage :=
  ⟨"tool", [ContentPart.toolResult tc.toolCallId tc.toolName output]⟩

/-- Phase 3: tool_result events in the original call order. -/
def phase3 (ps : List Pending) : List LoopEvent :=
  ps.map (fun p =>
    LoopEvent.toolResult p.tc.toolCallId p.tc.toolName (phase2 p).1 (phase2 p).2.1
      (toolResultMessage p.tc (phase2 p).1))

/-- The environment driving one loop run. -/
structure LoopEnv where
  script : Nat → ModelResponse
  tools : List Tool
  hasSteer : Bool
  hasFollowUp : Bool
  steer : Nat → List ModelMessage
  followUp : Nat → List ModelMessage
  dec : Nat → ToolCallDecision
  signal : Bool

/-- The loop's running state: the shared messages array, the trace of yields,
the user messages drained since the last yield, and the oracle counters. -/
structure LoopState where
  messages : List ModelMessage
  trace : List YieldItem
  pendingDrain : List ModelMessage
  s : Nat
  d : Nat
  f : Nat
  callIdx : Nat

/-- Yield an event: it carries the drained-since-last-yield buffer. -/
def yieldEvent (st : LoopState) (e : LoopEvent) : LoopState :=
  { st with trace := st.trace ++ [⟨st.pendingDrain, e⟩], pendingDrain := [] }

/-- The per-step body of loop.ts, recursing on the remaining step budget.
Drain point 1 precedes the model call; drain point 2 lives inside phase1;
drain point 3 keeps the loop alive on follow-up messages; deferred steering
messages are appended to the messages array only after Phase 3. -/
def loopSteps (env : LoopEnv) : Nat → LoopState → LoopState
  | 0, st => st
  | fuel + 1, st =>
    if env.signal then st
    else
      let st :=
        if env.hasSteer then
          { st with
              s := st.s + 1,
              pendingDrain := st.pendingDrain ++ env.steer st.s,
              messages := st.messages ++ env.steer st.s }
        else st
      let r := env.script st.callIdx
      let st := { st with callIdx := st.callIdx + 1 }
      let text := String.join r.textDeltas
      let st := r.textDeltas.foldl (fun acc dlt => yieldEvent acc (LoopEvent.textDelta dlt)) st
      let assistantMessage : ModelMessage :=
        ⟨"assistant",
          (if text == "" then [] else [ContentPart.text text])
            ++ r.toolCalls.map (fun tc => ContentPart.toolCall tc.toolCallId tc.toolName tc.input)⟩
      let st := { st with messages := st.messages ++ [assistantMessage] }
      let st := yieldEvent st (LoopEvent.message assistantMessage)
      let st := yieldEvent st (LoopEvent.step r.usageIn r.usageOut r.finishReason)
      if r.toolCalls.isEmpty then
        if env.hasFollowUp then
          let fu := env.followUp st.f
          let st := { st with f := st.f + 1, pendingDrain := st.pendingDrain ++ fu }
          if fu.isEmpty then st
          else loopSteps env fuel { st with messages := st.messages ++ fu }
        else st
      else
        let out := phase1 env.tools env.hasSteer env.steer env.dec st.s st.d r.toolCalls
        let st := out.events.foldl yieldEvent { st with s := out.s, d := out.d }
        let st :=
          match out.deferred with
          | some msgs => { st with pendingDrain := st.pendingDrain ++ msgs }
          | none => st
        let st := out.pending.foldl
          (fun acc p =>
            let tm := toolResultMessage p.tc (phase2 p).1
            yieldEvent { acc with messages := acc.messages ++ [tm] }
              (LoopEvent.toolResult p.tc.toolCallId p.tc.toolName (phase2 p).1 (phase2 p).2.1 tm))
          st
        let st :=
          match out.deferred with
          | some msgs => { st with messages := st.messages ++ msgs }
          | none => st
        loopSteps env fuel st

/-- A full loop run from a fresh generator state. -/
def loopRun (env : LoopEnv) (maxSteps : Nat) (messages : List ModelMessage) : LoopState :=
  loopSteps env maxSteps
    { messages := messages, trace := [], pendingDrain := [], s := 0, d := 0, f := 0, callIdx := 0 }

/-! ## The session driver (session.ts) -/

/-- An event observed by session listeners. -/
inductive SessionEvent where
  | message (m : ModelMessage)
  | textDelta (delta : String)
  | toolCall (callId name : String) (args : Args)
  | toolResult (callId name result : String) (isError : Bool)
  | step (usageIn usageOut : Nat) (finishReason : String)
  | turnEnd (messages : List ModelMessage) (text : String)
  | error (err : String)
deriving DecidableEq, Repr

/-- Whether a session event is turn_end. -/
def isTurnEnd : SessionEvent → Bool
  | .turnEnd _ _ => true
  | _ => false

/-- Session driver state: the entry log (append order equals store order),
the current leaf, a counter standing in for crypto.randomUUID and Date.now,
the turn accumulator, the last assistant text, and the emitted events. -/
structure SessionState where
  entries : List SessionEntry
  leafId : Option String
  nextId : Nat
  turnMessages : List ModelMessage
  lastText : String
  events : List SessionEvent

/-- A fresh session's driver state. -/
def initialSessionState : SessionState :=
  { entries := [], leafId := none, nextId := 0, turnMessages := [], lastText := "",
    events := [] }

/-- Emit a session event to the listeners. -/
def emitSession (st : SessionState) (e : SessionEvent) : SessionState :=
  { st with events := st.events ++ [e] }

/-- appendEntry: parent is the current leaf, a fresh id is generated, and the
new entry becomes the leaf. -/
def appendEntry (st : SessionState) (m : ModelMessage) : SessionState :=
  { st with
      entries := st.entries ++ [SessionEntry.message ("entry-" ++ toString st.nextId) st.leafId st.nextId m],
      leafId := some ("entry-" ++ toString st.nextId),
      nextId := st.nextId + 1 }

/-- Persist a message entry and push it on the turn accumulator. -/
def appendMsgEntry (st : SessionState) (m : ModelMessage) : SessionState :=
  let st := appendEntry st m
  { st with turnMessages := st.turnMessages ++ [m] }

/-- Flush one drained user message: persist, accumulate, emit message. -/
def flushMsg (st : SessionState) (m : ModelMessage) : SessionState :=
  emitSession (appendMsgEntry st m) (SessionEvent.message m)

/-- The text of the text parts of a content list, joined. -/
def textOfContent (c : List ContentPart) : String :=
  String.join (c.filterMap (fun p => match p with | ContentPart.text t => some t | _ => none))

/-- Dispatch one loop event, mirroring the switch in Session.runLoop.
tool_call events invoke the tool_call listeners; with no listener registered
the decision is undef, matching the scenarios proved below. -/
def dispatchEvent (st : SessionState) (e : LoopEvent) : SessionState :=
  match e with
  | LoopEvent.textDelta dlt => emitSession st (SessionEvent.textDelta dlt)
  | LoopEvent.message m =>
    let st := appendMsgEntry st m
    let st := if m.role == "assistant" then { st with lastText := textOfContent m.content } else st
    emitSession st (SessionEvent.message m)
  | LoopEvent.toolCall cid nm a => emitSession st (SessionEvent.toolCall cid nm a)
  | LoopEvent.toolResult cid nm res isErr tm =>
    emitSession (appendMsgEntry st tm) (SessionEvent.toolResult cid nm res isErr)
  | LoopEvent.step uin uout fr => emitSession st (SessionEvent.step uin uout fr)

/-- Session.runLoop consuming a finished generator run: persist and emit the
initial user messages, then for each yield flush the messages drained since
the previous yield before dispatching the event, flush once more when the
generator completes, and emit turn_end. -/
def sessionRun (st0 : SessionState) (initial : List ModelMessage) (lr : LoopState) :
    SessionState :=
  let st := initial.foldl flushMsg st0
  let st := lr.trace.foldl (fun acc item => dispatchEvent (item.drained.foldl flushMsg acc) item.event) st
  let st := lr.pendingDrain.foldl flushMsg st
  emitSession st (SessionEvent.turnEnd st.turnMessages st.lastText)

/-- The completion latch outcome: settle().resolve() or settle().reject(err). -/
inductive LatchResult where
  | resolved
  | rejected (err : String)
deriving DecidableEq, Repr

/-- How a generator run ends as seen by Session.runLoop: either every yield
resolves and the generator completes (done, with the messages still pending in
the drain buffer at completion), or an awaited gen.next rejects after the
given yields were dispatched — the propagation path of a model, stream or
abort error thrown out of the loop. -/
inductive GenOutcome where
  | done (trace : List YieldItem) (finalDrained : List ModelMessage)
  | thrown (trace : List YieldItem) (err : String)

/-- Session.runLoop including its catch branch: on normal completion the
final flush runs, turn_end is emitted and the latch resolves; when gen.next
rejects, the pending flush and turn_end are skipped, the error event is
emitted and the latch rejects with the error. -/
def sessionRunWith (st0 : SessionState) (initial : List ModelMessage) (gen : GenOutcome) :
    SessionState × LatchResult :=
  match gen with
  | GenOutcome.done trace finalDrained =>
    let st := initial.foldl flushMsg st0
    let st := trace.foldl
      (fun acc item => dispatchEvent (item.drained.foldl flushMsg acc) item.event) st
    let st := finalDrained.foldl flushMsg st
    (emitSession st (SessionEvent.turnEnd st.turnMessages st.lastText), LatchResult.resolved)
  | GenOutcome.thrown trace err =>
    let st := initial.foldl flushMsg st0
    let st := trace.foldl
      (fun acc item => dispatchEvent (item.drained.foldl flushMsg acc) item.event) st
    (emitSession st (SessionEvent.error err), LatchResult.rejected err)

/-- The session event a dispatched loop event is delivered as. -/
def sessionEventOf : LoopEvent → SessionEvent
  | LoopEvent.textDelta d => SessionEvent.textDelta d
  | LoopEvent.message m => SessionEvent.message m
  | LoopEvent.toolCall cid nm a => SessionEvent.toolCall cid nm a
  | LoopEvent.toolResult cid nm res isErr _ => SessionEvent.toolResult cid nm res isErr
  | LoopEvent.step uin uout fr => SessionEvent.step uin uout fr

/-! ## Listener registry (Session.emitToolCall) -/

/-- Whether a listener's return value is a decision (has a deny or args key). -/
def isDecision : ToolCallDecision → Bool
  | ToolCallDecision.deny _ => true
  | ToolCallDecision.args _ => true
  | ToolCallDecision.undef => false

/-- The payload handed to tool_call listeners. -/
structure ToolCallPayload where
  callId : String
  name : String
  args : Args

/-- Session.emitToolCall over the insertion-ordered listener list: invoke
listeners in order, return the first decision; the second component counts
how many listeners were invoked. -/
def emitToolCall :
    List (ToolCallPayload → ToolCallDecision) → ToolCallPayload → ToolCallDecision × Nat
  | [], _ => (ToolCallDecision.undef, 0)
  | l :: rest, p =>
    if isDecision (l p) then (l p, 1)
    else ((emitToolCall rest p).1, (emitToolCall rest p).2 + 1)

/-! ## Agent.resumeSession (agent.ts) -/

/-- The default-leaf computation of resumeSession:
`opts?.leafId ?? (entries.length > 0 ? entries[entries.length-1]!.id : null)`. -/
def resumeLeaf (loaded : List SessionEntry) (optsLeafId : Option String) : Option String :=
  match optsLeafId with
  | some l => some l
  | none => loaded.getLast?.map SessionEntry.id

/-- Agent.resumeSession: returns the leaf of the constructed session or the
thrown error message.  The Entry-not-found guard is a JS truthiness test on
`opts?.leafId`, so a supplied empty string never triggers it. -/
def resumeSession (loaded : List SessionEntry) (storeExists : Bool) (id : String)
    (optsLeafId : Option String) : Except String (Option String) :=
  if loaded.length == 0 && !storeExists then
    Except.error ("Session not found: " ++ id)
  else
    let leafId := resumeLeaf loaded optsLeafId
    match optsLeafId with
    | some l =>
      if !(l == "") && !(loaded.any (fun e => e.id == l)) then
        Except.error ("Entry not found: " ++ l)
      else Except.ok leafId
    | none => Except.ok leafId

/-! ## Lemmas about buildContext -/

theorem lastCompactionSplit_shape :
    ∀ (xs pre suf : List SessionEntry) (c : SessionEntry),
      lastCompactionSplit xs = some (pre, c, suf) → xs = pre ++ c :: suf := by
  intro xs
  induction xs with
  | nil => intro pre suf c h; simp [lastCompactionSplit] at h
  | cons e rest ih =>
    intro pre suf c h
    rw [lastCompactionSplit] at h
    cases hr : lastCompactionSplit rest with
    | some t =>
      obtain ⟨p', c', s'⟩ := t
      rw [hr] at h
      simp only [Option.some.injEq, Prod.mk.injEq] at h
      obtain ⟨h1, h2, h3⟩ := h
      subst h1 h2 h3
      simpa using congrArg (e :: ·) (ih p' s' c' hr)
    | none =>
      rw [hr] at h
      by_cases hc : isCompaction e
      · simp only [hc, if_true, Option.some.injEq, Prod.mk.injEq] at h
        obtain ⟨h1, h2, h3⟩ := h
        subst h1 h2 h3
        simp
      · simp [hc] at h

theorem lastCompactionSplit_none_of_no_compaction :
    ∀ (xs : List SessionEntry), (∀ e ∈ xs, isCompaction e = false) →
      lastCompactionSplit xs = none := by
  intro xs
  induction xs with
  | nil => intro _; rfl
  | cons e rest ih =>
    intro h
    rw [lastCompactionSplit, ih (fun x hx => h x (List.mem_cons_of_mem _ hx)),
      h e (List.mem_cons_self _ _)]
    simp

theorem lastCompactionSplit_append :
    ∀ (pre suf : List SessionEntry) (c : SessionEntry),
      isCompaction c = true → (∀ e ∈ suf, isCompaction e = false) →
      lastCompactionSplit (pre ++ c :: suf) = some (pre, c, suf) := by
  intro pre
  induction pre with
  | nil =>
    intro suf c hc hsuf
    rw [List.nil_append, lastCompactionSplit,
      lastCompactionSplit_none_of_no_compaction suf hsuf, hc]
    simp
  | cons e pre' ih =>
    intro suf c hc hsuf
    rw [List.cons_append, lastCompactionSplit, ih suf c hc hsuf]

theorem keptMessages_true_eq (fKept : String) :
    ∀ (xs : List SessionEntry),
      keptMessages fKept xs true = xs.filterMap SessionEntry.msg := by
  intro xs
  induction xs with
  | nil => rfl
  | cons e rest ih =>
    rw [keptMessages]
    simp only [Bool.true_or, if_true, ih, List.filterMap_cons]
    cases e <;> simp [SessionEntry.msg]

theorem keptMessages_false_eq (fKept : String) :
    ∀ (xs : List SessionEntry),
      keptMessages fKept xs false
        = (xs.dropWhile (fun e => !(e.id == fKept))).filterMap SessionEntry.msg := by
  intro xs
  induction xs with
  | nil => rfl
  | cons e rest ih =>
    rw [keptMessages, List.dropWhile_cons]
    by_cases hk : e.id == fKept
    · simp only [hk, Bool.false_or, if_true, Bool.not_true, Bool.false_eq_true, if_false,
        keptMessages_true_eq, List.filterMap_cons]
      cases e <;> simp [SessionEntry.msg]
    · simp only [Bool.not_eq_true] at hk
      simp [hk, ih]

theorem keptMessages_length_le (fKept : String) :
    ∀ (xs : List SessionEntry) (b : Bool),
      (keptMessages fKept xs b).length ≤ xs.length := by
  intro xs
  induction xs with
  | nil => intro b; simp [keptMessages]
  | cons e rest ih =>
    intro b
    rw [keptMessages]
    simp only [List.length_append, List.length_cons]
    have h1 : (if (b || e.id == fKept) = true then (e.msg).toList else []).length ≤ 1 := by
      split
      · cases e <;> simp [SessionEntry.msg]
      · simp
    have h2 := ih (b || e.id == fKept)
    omega

/-- The number of distinct entry ids not yet visited: the variant that the
visited-set guard decreases on every walk step. -/
def idsNotVisited (entries : List SessionEntry) (visited : List String) : Nat :=
  (((entries.map SessionEntry.id).dedup).filter (fun i => decide (i ∉ visited))).length

theorem mem_of_indexGet_eq_some {entries : List SessionEntry} {key : String}
    {e : SessionEntry} (h : indexGet entries key = some e) : e ∈ entries := by
  have := List.mem_of_find?_eq_some h
  exact List.mem_reverse.mp this

theorem mem_of_parentLookup_eq_some {entries : List SessionEntry} {x e : SessionEntry}
    (h : parentLookup entries x = some e) : e ∈ entries := by
  unfold parentLookup at h
  split at h
  · exact absurd h (by simp)
  · split at h
    · exact absurd h (by simp)
    · exact mem_of_indexGet_eq_some h

theorem idsNotVisited_cons_lt {entries : List SessionEntry} {visited : List String}
    {e : SessionEntry} (he : e ∈ entries) (hv : e.id ∉ visited) :
    idsNotVisited entries (e.id :: visited) < idsNotVisited entries visited := by
  unfold idsNotVisited
  have hsub : ((entries.map SessionEntry.id).dedup).filter
        (fun i => decide (i ∉ e.id :: visited))
      = (((entries.map SessionEntry.id).dedup).filter (fun i => decide (i ∉ visited))).filter
        (fun i => decide (i ≠ e.id)) := by
    rw [List.filter_filter]
    apply List.filter_congr
    intro x _
    by_cases h1 : x ∈ visited <;> by_cases h2 : x = e.id <;>
      simp [h1, h2, List.mem_cons]
  rw [hsub]
  apply List.length_filter_lt_length_iff_exists.mpr
  refine ⟨e.id, ?_, by simp⟩
  rw [List.mem_filter]
  refine ⟨?_, by simpa using hv⟩
  rw [List.mem_dedup, List.mem_map]
  exact ⟨e, he, rfl⟩

theorem walk_length_le (entries : List SessionEntry) :
    ∀ (fuel : Nat) (cur : Option SessionEntry) (visited : List String),
      (∀ e, cur = some e → e ∈ entries) →
      (walk entries cur visited fuel).length ≤ idsNotVisited entries visited := by
  intro fuel
  induction fuel with
  | zero => intro cur visited _; simp [walk]
  | succ fuel ih =>
    intro cur visited hmem
    cases cur with
    | none => simp [walk]
    | some e =>
      rw [walk]
      by_cases hv : e.id ∈ visited
      · simp [hv]
      · rw [if_neg hv]
        have hlt := idsNotVisited_cons_lt (hmem e rfl) hv
        have hrec := ih (parentLookup entries e) (e.id :: visited)
          (fun x hx => mem_of_parentLookup_eq_some hx)
        simp only [List.length_cons]
        omega

theorem walk_stable (entries : List SessionEntry) :
    ∀ (fuel₁ : Nat) (fuel₂ : Nat) (cur : Option SessionEntry) (visited : List String),
      (∀ e, cur = some e → e ∈ entries) →
      idsNotVisited entries visited < fuel₁ →
      idsNotVisited entries visited < fuel₂ →
      walk entries cur visited fuel₁ = walk entries cur visited fuel₂ := by
  intro fuel₁
  induction fuel₁ with
  | zero => intro fuel₂ cur visited _ h1 _; omega
  | succ fuel₁ ih =>
    intro fuel₂ cur visited hmem h1 h2
    cases fuel₂ with
    | zero => omega
    | succ fuel₂ =>
      cases cur with
      | none => rfl
      | some e =>
        rw [walk, walk]
        by_cases hv : e.id ∈ visited
        · simp [hv]
        · rw [if_neg hv, if_neg hv]
          have hlt := idsNotVisited_cons_lt (hmem e rfl) hv
          have := ih fuel₂ (parentLookup entries e) (e.id :: visited)
            (fun x hx => mem_of_parentLookup_eq_some hx) (by omega) (by omega)
          rw [this]

theorem idsNotVisited_le (entries : List SessionEntry) :
    idsNotVisited entries [] ≤ entries.length := by
  unfold idsNotVisited
  calc (((entries.map SessionEntry.id).dedup).filter _).length
      ≤ ((entries.map SessionEntry.id).dedup).length := List.length_filter_le _ _
    _ ≤ (entries.map SessionEntry.id).length := (List.dedup_sublist _).length_le
    _ = entries.length := List.length_map _ _

theorem rootToLeafPathFuel_stable (entries : List SessionEntry) (leaf : Option String)
    (fuel : Nat) (h : entries.length + 1 ≤ fuel) :
    rootToLeafPathFuel entries leaf fuel = rootToLeafPath entries leaf := by
  cases leaf with
  | none => rfl
  | some lid =>
    by_cases he : entries.isEmpty
    · simp [rootToLeafPath, rootToLeafPathFuel, he]
    · have hm := idsNotVisited_le entries
      have hw : walk entries (indexGet entries lid) [] fuel
          = walk entries (indexGet entries lid) [] (entries.length + 1) :=
        walk_stable entries fuel (entries.length + 1) (indexGet entries lid) []
          (fun e hx => mem_of_indexGet_eq_some hx) (by omega) (by omega)
      simp [rootToLeafPath, rootToLeafPathFuel, he, hw]

theorem rootToLeafPath_length_le (entries : List SessionEntry) (leaf : Option String) :
    (rootToLeafPath entries leaf).length ≤ entries.length := by
  cases leaf with
  | none => simp [rootToLeafPath, rootToLeafPathFuel]
  | some lid =>
    by_cases he : entries.isEmpty
    · simp [rootToLeafPath, rootToLeafPathFuel, he]
    · have hwl := walk_length_le entries (entries.length + 1) (indexGet entries lid) []
        (fun e hx => mem_of_indexGet_eq_some hx)
      have hm := idsNotVisited_le entries
      simp only [rootToLeafPath, rootToLeafPathFuel, he, Bool.false_eq_true, if_false,
        List.length_reverse]
      omega

/-! ## Claims about buildContext -/

/-- C4: when the root-to-leaf path contains a compaction, buildContext returns
the synthetic user message "<summary>" ++ summary ++ "</summary>" of the latest
compaction on the path (the one after which no compaction follows), then the
message-entry messages of the prefix starting at the entry whose id equals
firstKeptId (nothing from the prefix when no entry there has that id), then
every message-entry message strictly after that compaction, in path order. -/
theorem buildContext_compaction_spec
    (entries : List SessionEntry) (lid : String)
    (pre suf : List SessionEntry) (c : SessionEntry)
    (hpath : rootToLeafPath entries (some lid) = pre ++ c :: suf)
    (hc : isCompaction c = true)
    (hsuf : ∀ e ∈ suf, isCompaction e = false) :
    buildContext entries (some lid)
      = ⟨"user", [ContentPart.text ("<summary>" ++ c.summary ++ "</summary>")]⟩
        :: ((pre.dropWhile (fun e => !(e.id == c.firstKeptId))).filterMap SessionEntry.msg
          ++ suf.filterMap SessionEntry.msg) := by
  unfold buildContext buildCore
  rw [hpath, lastCompactionSplit_append pre suf c hc hsuf]
  simp only [keptMessages_false_eq, summaryMessage, List.cons_append]

/-- Witness for C4 at a concrete history with one compaction. -/
theorem buildContext_compaction_spec_witness :
    buildContext
        [SessionEntry.message "a" none 0 ⟨"user", [ContentPart.text "old"]⟩,
         SessionEntry.message "c" (some "a") 1 ⟨"user", [ContentPart.text "kept"]⟩,
         SessionEntry.compaction "k" (some "c") 2 "S" "c",
         SessionEntry.message "e" (some "k") 3 ⟨"user", [ContentPart.text "new"]⟩]
        (some "e")
      = ⟨"user", [ContentPart.text ("<summary>" ++ (SessionEntry.compaction "k" (some "c") 2 "S" "c").summary ++ "</summary>")]⟩
        :: (([SessionEntry.message "a" none 0 ⟨"user", [ContentPart.text "old"]⟩,
              SessionEntry.message "c" (some "a") 1 ⟨"user", [ContentPart.text "kept"]⟩].dropWhile
                (fun e => !(e.id == (SessionEntry.compaction "k" (some "c") 2 "S" "c").firstKeptId))).filterMap SessionEntry.msg
          ++ [SessionEntry.message "e" (some "k") 3 ⟨"user", [ContentPart.text "new"]⟩].filterMap SessionEntry.msg) :=
  buildContext_compaction_spec _ "e"
    [SessionEntry.message "a" none 0 ⟨"user", [ContentPart.text "old"]⟩,
     SessionEntry.message "c" (some "a") 1 ⟨"user", [ContentPart.text "kept"]⟩]
    [SessionEntry.message "e" (some "k") 3 ⟨"user", [ContentPart.text "new"]⟩]
    (SessionEntry.compaction "k" (some "c") 2 "S" "c")
    (by decide) (by decide) (by decide)

/-- C5: with no compaction on the root-to-leaf path, buildContext equals the
in-order subsequence of the message-entry messages on that path. -/
theorem buildContext_roundtrip_no_compaction
    (entries : List SessionEntry) (leaf : Option String)
    (h : ∀ e ∈ rootToLeafPath entries leaf, isCompaction e = false) :
    buildContext entries leaf = (rootToLeafPath entries leaf).filterMap SessionEntry.msg := by
  unfold buildContext buildCore
  rw [lastCompactionSplit_none_of_no_compaction _ h]

/-- Witness for C5 on a concrete compaction-free branch. -/
theorem buildContext_roundtrip_no_compaction_witness :
    buildContext
        [SessionEntry.message "a" none 0 ⟨"user", [ContentPart.text "hi"]⟩,
         SessionEntry.message "b" (some "a") 1 ⟨"assistant", [ContentPart.text "yo"]⟩]
        (some "b")
      = (rootToLeafPath
          [SessionEntry.message "a" none 0 ⟨"user", [ContentPart.text "hi"]⟩,
           SessionEntry.message "b" (some "a") 1 ⟨"assistant", [ContentPart.text "yo"]⟩]
          (some "b")).filterMap SessionEntry.msg :=
  buildContext_roundtrip_no_compaction _ _ (by decide)

/-- C6: buildContext is total and cycle-safe: the visited-set guard (not the
fuel) terminates the walk — any fuel of at least entries.length + 1 computes
the same result — and the output never exceeds entries.length + 1 messages. -/
theorem buildContext_total_and_bounded
    (entries : List SessionEntry) (leaf : Option String) :
    (∀ fuel, entries.length + 1 ≤ fuel →
        buildContextFuel entries leaf fuel = buildContext entries leaf)
      ∧ (buildContext entries leaf).length ≤ entries.length + 1 := by
  constructor
  · intro fuel hf
    unfold buildContextFuel buildContext
    rw [rootToLeafPathFuel_stable entries leaf fuel hf]
  · have hp := rootToLeafPath_length_le entries leaf
    unfold buildContext buildCore
    cases hs : lastCompactionSplit (rootToLeafPath entries leaf) with
    | none =>
      simp only [hs]
      have := List.length_filterMap_le SessionEntry.msg (rootToLeafPath entries leaf)
      omega
    | some t =>
      obtain ⟨pre, c, suf⟩ := t
      have hshape := lastCompactionSplit_shape _ pre suf c hs
      have h1 := keptMessages_length_le c.firstKeptId pre false
      have h2 := List.length_filterMap_le SessionEntry.msg suf
      have h3 : (rootToLeafPath entries leaf).length = pre.length + 1 + suf.length := by
        rw [hshape]; simp; omega
      simp only [hs, List.length_cons, List.length_append]
      omega

/-- Witness for C6 on a cyclic parent chain: a → b → a. -/
theorem buildContext_total_and_bounded_witness :
    buildContextFuel
        [SessionEntry.message "a" (some "b") 0 ⟨"user", [ContentPart.text "m"]⟩,
         SessionEntry.message "b" (some "a") 1 ⟨"user", [ContentPart.text "n"]⟩]
        (some "b") 7
      = buildContext
        [SessionEntry.message "a" (some "b") 0 ⟨"user", [ContentPart.text "m"]⟩,
         SessionEntry.message "b" (some "a") 1 ⟨"user", [ContentPart.text "n"]⟩]
        (some "b")
    ∧ (buildContext
        [SessionEntry.message "a" (some "b") 0 ⟨"user", [ContentPart.text "m"]⟩,
         SessionEntry.message "b" (some "a") 1 ⟨"user", [ContentPart.text "n"]⟩]
        (some "b")).length ≤ 3 :=
  ⟨(buildContext_total_and_bounded _ _).1 7 (by decide),
   (buildContext_total_and_bounded _ _).2⟩

/-- C10: a non-null leafId that is not the id of any entry yields the empty
context (no exception path exists). -/
theorem buildContext_unknown_leaf_empty
    (entries : List SessionEntry) (lid : String)
    (h : ∀ e ∈ entries, ¬ e.id = lid) :
    buildContext entries (some lid) = [] := by
  have hidx : indexGet entries lid = none := by
    apply List.find?_eq_none.mpr
    intro e he
    simpa using h e (List.mem_reverse.mp he)
  have hpath : rootToLeafPath entries (some lid) = [] := by
    unfold rootToLeafPath rootToLeafPathFuel
    by_cases he : entries.isEmpty
    · simp [he]
    · simp only [he, Bool.false_eq_true, if_false, hidx]
      cases h : entries.length + 1 with
      | zero => simp [walk]
      | succ n => simp [walk]
  unfold buildContext
  rw [hpath]
  rfl

/-- Witness for C10 with a leaf id absent from the entry list. -/
theorem buildContext_unknown_leaf_empty_witness :
    buildContext
        [SessionEntry.message "a" none 0 ⟨"user", [ContentPart.text "hi"]⟩]
        (some "zzz")
      = [] :=
  buildContext_unknown_leaf_empty _ "zzz" (by decide)

/-! ## Claim about the listener registry -/

theorem emitToolCall_decision_eq
    (ls : List (ToolCallPayload → ToolCallDecision)) (p : ToolCallPayload) :
    (emitToolCall ls p).1
        = ((ls.map (fun f => f p)).find? isDecision).getD ToolCallDecision.undef := by
  induction ls with
  | nil => rfl
  | cons l rest ih =>
    rw [emitToolCall]
    by_cases hd : isDecision (l p)
    · simp [hd, List.find?_cons]
    · have hd' : isDecision (l p) = false := by simpa using hd
      rw [if_neg (by simp [hd'])]
      show (emitToolCall rest p).1 = _
      simp [List.find?_cons, hd', ih]

theorem emitToolCall_invoked_eq
    (ls : List (ToolCallPayload → ToolCallDecision)) (p : ToolCallPayload) :
    (emitToolCall ls p).2
        = ((ls.map (fun f => f p)).takeWhile (fun r => !(isDecision r))).length
          + (if ((ls.map (fun f => f p)).find? isDecision).isSome then 1 else 0) := by
  induction ls with
  | nil => rfl
  | cons l rest ih =>
    rw [emitToolCall]
    by_cases hd : isDecision (l p)
    · simp [hd, List.takeWhile_cons, List.find?_cons]
    · have hd' : isDecision (l p) = false := by simpa using hd
      rw [if_neg (by simp [hd'])]
      show (emitToolCall rest p).2 + 1 = _
      rw [ih]
      have ht : List.takeWhile (fun r => !(isDecision r)) ((l :: rest).map (fun f => f p))
          = l p :: List.takeWhile (fun r => !(isDecision r)) (rest.map (fun f => f p)) := by
        simp [List.takeWhile_cons, hd']
      have hf : List.find? isDecision ((l :: rest).map (fun f => f p))
          = List.find? isDecision (rest.map (fun f => f p)) := by
        simp [List.find?_cons, hd']
      rw [ht, hf, List.length_cons, Nat.add_right_comm]

/-- C9: listeners run in insertion order; the first to return a deny or args
decision determines the result and ends the iteration — the invoked count is
the length of the non-deciding prefix plus one when a decider exists; with no
decider the result is undefined and every listener was invoked. -/
theorem emitToolCall_first_decision_wins
    (ls : List (ToolCallPayload → ToolCallDecision)) (p : ToolCallPayload) :
    (emitToolCall ls p).1
        = ((ls.map (fun f => f p)).find? isDecision).getD ToolCallDecision.undef
      ∧ (emitToolCall ls p).2
        = ((ls.map (fun f => f p)).takeWhile (fun r => !(isDecision r))).length
          + (if ((ls.map (fun f => f p)).find? isDecision).isSome then 1 else 0) :=
  ⟨emitToolCall_decision_eq ls p, emitToolCall_invoked_eq ls p⟩

/-! ## Lemmas about the tool phases -/

/-- The callId of a tool_call event. -/
def toolCallIdOf : LoopEvent → Option String
  | LoopEvent.toolCall cid _ _ => some cid
  | _ => none

/-- The callId of a tool_result event. -/
def toolResultIdOf : LoopEvent → Option String
  | LoopEvent.toolResult cid _ _ _ _ => some cid
  | _ => none

theorem phase3_ids (ps : List Pending) :
    (phase3 ps).filterMap toolResultIdOf = ps.map (fun p => p.tc.toolCallId) := by
  induction ps with
  | nil => rfl
  | cons q rest ih =>
    have h1 : phase3 (q :: rest)
        = LoopEvent.toolResult q.tc.toolCallId q.tc.toolName (phase2 q).1 (phase2 q).2.1
            (toolResultMessage q.tc (phase2 q).1) :: phase3 rest := rfl
    rw [h1, List.filterMap_cons]
    have h2 : toolResultIdOf
        (LoopEvent.toolResult q.tc.toolCallId q.tc.toolName (phase2 q).1 (phase2 q).2.1
          (toolResultMessage q.tc (phase2 q).1)) = some q.tc.toolCallId := rfl
    simp only [h2, ih, List.map_cons]

theorem phase1_pending_tc (tools : List Tool) (hasSteer : Bool)
    (steer : Nat → List ModelMessage) (dec : Nat → ToolCallDecision) :
    ∀ (tcs : List ToolCallPart) (s d : Nat),
      ((phase1 tools hasSteer steer dec s d tcs).pending).map Pending.tc = tcs := by
  intro tcs
  induction tcs with
  | nil => intro s d; rfl
  | cons tc rest ih =>
    intro s d
    rw [phase1]
    by_cases hcond : (hasSteer && !(steer s).isEmpty) = true
    · simp only [hcond, if_true]
      simp [List.map_map, Function.comp_def]
    · simp only [hcond, if_false]
      cases hft : findTool tools tc.toolName with
      | none => simp [ih]
      | some t => simp [ih]

theorem filterMap_toolCallIdOf_map (tcs : List ToolCallPart) :
    (tcs.map (fun tc => LoopEvent.toolCall tc.toolCallId tc.toolName tc.input)).filterMap
        toolCallIdOf
      = tcs.map ToolCallPart.toolCallId := by
  induction tcs with
  | nil => rfl
  | cons tc rest ih =>
    rw [List.map_cons, List.filterMap_cons]
    have h2 : toolCallIdOf (LoopEvent.toolCall tc.toolCallId tc.toolName tc.input)
        = some tc.toolCallId := rfl
    simp only [h2, ih, List.map_cons]

theorem phase1_events_of_no_steer (tools : List Tool) (hasSteer : Bool)
    (steer : Nat → List ModelMessage) (dec : Nat → ToolCallDecision) :
    ∀ (tcs : List ToolCallPart) (s d : Nat),
      (hasSteer = true → ∀ i, i < tcs.length → steer (s + i) = []) →
      (∀ tc ∈ tcs, (findTool tools tc.toolName).isSome = true) →
      (phase1 tools hasSteer steer dec s d tcs).events
        = tcs.map (fun tc => LoopEvent.toolCall tc.toolCallId tc.toolName tc.input) := by
  intro tcs
  induction tcs with
  | nil => intro s d _ _; rfl
  | cons tc rest ih =>
    intro s d hs hk
    rw [phase1]
    have hcond : (hasSteer && !(steer s).isEmpty) = false := by
      cases hh : hasSteer
      · simp
      · have h0 : steer (s + 0) = [] := hs hh 0 (by simp)
        simp only [Nat.add_zero] at h0
        simp [h0]
    rw [hcond]
    simp only [Bool.false_eq_true, if_false]
    obtain ⟨t, ht⟩ := Option.isSome_iff_exists.mp (hk tc (List.mem_cons_self _ _))
    rw [ht]
    have hrest : (hasSteer = true →
        ∀ i, i < rest.length → steer ((if hasSteer then s + 1 else s) + i) = []) := by
      intro hh i hi
      rw [hh]
      simp only [if_true]
      have := hs hh (i + 1) (by simp; omega)
      rwa [show s + (i + 1) = s + 1 + i by omega] at this
    have := ih (if hasSteer then s + 1 else s) (d + 1) hrest
      (fun x hx => hk x (List.mem_cons_of_mem _ hx))
    simp only [List.map_cons]
    rw [← this]

/-- C3 (amended): in a step's tool phase, the tool_result callIds are exactly
the callIds of the assistant message's tool calls, in order; the tool_call
event callIds equal them only when getSteeringMessages stays empty during
Phase 1 and every call names a registered tool (unknown tools and calls
auto-denied by a mid-phase steering drain produce a tool_result without a
tool_call event). -/
theorem tool_result_ids_match_calls (tools : List Tool) (hasSteer : Bool)
    (steer : Nat → List ModelMessage) (dec : Nat → ToolCallDecision)
    (s d : Nat) (tcs : List ToolCallPart) :
    (phase3 (phase1 tools hasSteer steer dec s d tcs).pending).filterMap toolResultIdOf
        = tcs.map ToolCallPart.toolCallId
      ∧ ((hasSteer = true → ∀ i, i < tcs.length → steer (s + i) = []) →
         (∀ tc ∈ tcs, (findTool tools tc.toolName).isSome = true) →
         (phase1 tools hasSteer steer dec s d tcs).events.filterMap toolCallIdOf
            = tcs.map ToolCallPart.toolCallId) := by
  constructor
  · rw [phase3_ids]
    have h1 := phase1_pending_tc tools hasSteer steer dec tcs s d
    calc ((phase1 tools hasSteer steer dec s d tcs).pending).map (fun p => p.tc.toolCallId)
        = (((phase1 tools hasSteer steer dec s d tcs).pending).map Pending.tc).map
            ToolCallPart.toolCallId := by
          rw [List.map_map]; rfl
      _ = tcs.map ToolCallPart.toolCallId := by rw [h1]
  · intro hs hk
    rw [phase1_events_of_no_steer tools hasSteer steer dec tcs s d hs hk,
      filterMap_toolCallIdOf_map]

/-- Witness for the amended C3 at a concrete step with two registered calls. -/
theorem tool_result_ids_match_calls_witness :
    (phase3 (phase1 [⟨"bash", fun _ => Except.ok "out"⟩] true (fun _ => [])
          (fun _ => ToolCallDecision.undef) 0 0
          [⟨"c1", "bash", "x"⟩, ⟨"c2", "bash", "y"⟩]).pending).filterMap toolResultIdOf
        = [⟨"c1", "bash", "x"⟩, ⟨"c2", "bash", "y"⟩].map ToolCallPart.toolCallId
      ∧ (phase1 [⟨"bash", fun _ => Except.ok "out"⟩] true (fun _ => [])
          (fun _ => ToolCallDecision.undef) 0 0
          [⟨"c1", "bash", "x"⟩, ⟨"c2", "bash", "y"⟩]).events.filterMap toolCallIdOf
        = [⟨"c1", "bash", "x"⟩, ⟨"c2", "bash", "y"⟩].map ToolCallPart.toolCallId :=
  ⟨(tool_result_ids_match_calls _ _ _ _ _ _ _).1,
   (tool_result_ids_match_calls _ _ _ _ _ _ _).2 (fun _ _ _ => rfl) (by decide)⟩

theorem phase2_deny_outcome (tools : List Tool) (r : ToolCallPart) :
    phase2 ⟨r, findTool tools r.toolName, ToolCallDecision.deny STEERING_DENY_REASON⟩
      = ((match findTool tools r.toolName with
          | some _ => STEERING_DENY_REASON
          | none => "Tool not found: " ++ r.toolName), true, false) := by
  cases hft : findTool tools r.toolName <;> simp [phase2, hft]

theorem phase1_steering_tail_denied (tools : List Tool)
    (steer : Nat → List ModelMessage) (dec : Nat → ToolCallDecision) :
    ∀ (tcs : List ToolCallPart) (s d i : Nat), i < tcs.length →
      (∀ j, j < i → steer (s + j) = []) → steer (s + i) ≠ [] →
      (phase1 tools true steer dec s d tcs).pending.drop i
        = (tcs.drop i).map
            (fun r => ⟨r, findTool tools r.toolName, ToolCallDecision.deny STEERING_DENY_REASON⟩) := by
  intro tcs
  induction tcs with
  | nil => intro s d i hi _ _; simp at hi
  | cons tc rest ih =>
    intro s d i hi hbefore hat
    cases i with
    | zero =>
      simp only [Nat.add_zero] at hat
      have hne : (steer s).isEmpty = false := by
        cases hq : steer s
        · exact absurd hq hat
        · rfl
      rw [phase1]
      simp [hne]
    | succ i' =>
      have h0 : steer (s + 0) = [] := hbefore 0 (by omega)
      simp only [Nat.add_zero] at h0
      rw [phase1]
      have hcond : (true && !(steer s).isEmpty) = false := by simp [h0]
      rw [hcond]
      simp only [Bool.false_eq_true, if_false, if_true]
      have hbefore' : ∀ j, j < i' → steer (s + 1 + j) = [] := by
        intro j hj
        have := hbefore (j + 1) (by omega)
        rwa [show s + (j + 1) = s + 1 + j by omega] at this
      have hat' : steer (s + 1 + i') ≠ [] := by
        rwa [show s + 1 + i' = s + (i' + 1) by omega]
      have hlen : i' < rest.length := by simpa using hi
      cases hft : findTool tools tc.toolName with
      | none =>
        have := ih (s + 1) d i' hlen hbefore' hat'
        simp only [List.drop_succ_cons, this]
      | some t =>
        have := ih (s + 1) (d + 1) i' hlen hbefore' hat'
        simp only [List.drop_succ_cons, this]

/-- C7 (amended): when getSteeringMessages returns a non-empty list at the
i-th Phase 1 iteration (the first non-empty drain), that call and every
remaining call receive the decision deny with exactly the canonical reason,
none of them is executed, and each produces an isError tool_result whose
result is the canonical reason when its tool is registered and
"Tool not found: {name}" when it is not. -/
theorem steering_denies_remaining_calls (tools : List Tool)
    (steer : Nat → List ModelMessage) (dec : Nat → ToolCallDecision)
    (tcs : List ToolCallPart) (s d i : Nat) (hi : i < tcs.length)
    (hbefore : ∀ j, j < i → steer (s + j) = []) (hat : steer (s + i) ≠ []) :
    (phase1 tools true steer dec s d tcs).pending.drop i
        = (tcs.drop i).map
            (fun r => ⟨r, findTool tools r.toolName, ToolCallDecision.deny STEERING_DENY_REASON⟩)
      ∧ ∀ r : ToolCallPart,
          phase2 ⟨r, findTool tools r.toolName, ToolCallDecision.deny STEERING_DENY_REASON⟩
            = ((match findTool tools r.toolName with
                | some _ => STEERING_DENY_REASON
                | none => "Tool not found: " ++ r.toolName), true, false) :=
  ⟨phase1_steering_tail_denied tools steer dec tcs s d i hi hbefore hat,
   fun r => phase2_deny_outcome tools r⟩

/-- Witness for the amended C7: steering arrives before the second of two
calls; the second call is auto-denied with the canonical reason. -/
theorem steering_denies_remaining_calls_witness :
    (phase1 [⟨"bash", fun _ => Except.ok "out"⟩] true
          (fun n => if n == 1 then [⟨"user", [ContentPart.text "stop"]⟩] else [])
          (fun _ => ToolCallDecision.undef) 0 0
          [⟨"c1", "bash", "x"⟩, ⟨"c2", "bash", "y"⟩]).pending.drop 1
        = ([⟨"c1", "bash", "x"⟩, ⟨"c2", "bash", "y"⟩].drop 1).map
            (fun r => ⟨r, findTool [⟨"bash", fun _ => Except.ok "out"⟩] r.toolName,
              ToolCallDecision.deny STEERING_DENY_REASON⟩)
      ∧ ∀ r : ToolCallPart,
          phase2 ⟨r, findTool [⟨"bash", fun _ => Except.ok "out"⟩] r.toolName,
              ToolCallDecision.deny STEERING_DENY_REASON⟩
            = ((match findTool [⟨"bash", fun _ => Except.ok "out"⟩] r.toolName with
                | some _ => STEERING_DENY_REASON
                | none => "Tool not found: " ++ r.toolName), true, false) :=
  steering_denies_remaining_calls _ _ _ _ 0 0 1 (by decide)
    (fun j hj => by have hj0 : j = 0 := by omega
                    subst hj0; rfl) (by decide)

/-- C7 (counterexample): with steering arriving while the only pending call
names an unregistered tool, the auto-denied call's tool_result carries
"Tool not found: ghost", not the canonical deny reason the claim requires. -/
theorem steering_deny_unknown_tool_result_counterexample :
    (phase3 (phase1 [] true (fun _ => [⟨"user", [ContentPart.text "stop"]⟩])
          (fun _ => ToolCallDecision.undef) 0 0 [⟨"c1", "ghost", "x"⟩]).pending)
        = [LoopEvent.toolResult "c1" "ghost" ("Tool not found: " ++ "ghost") true
            (toolResultMessage ⟨"c1", "ghost", "x"⟩ ("Tool not found: " ++ "ghost"))]
      ∧ ("Tool not found: " ++ "ghost") ≠ STEERING_DENY_REASON := by
  constructor
  · rfl
  · decide

/-! ## Concrete runs -/

/-- A user message with the given text. -/
def userText (t : String) : ModelMessage := ⟨"user", [ContentPart.text t]⟩

/-- A bash-like tool that succeeds with a fixed output. -/
def bashTool : Tool := ⟨"bash", fun _ => Except.ok "a-out"⟩

/-- The steering message of the drain-point-2 scenario. -/
def steerMsg : ModelMessage := userText "Stop, new instruction"

/-- Scenario script: step 1 calls bash twice, step 2 answers with text. -/
def steeringScript : Nat → ModelResponse
  | 0 => ⟨[], [⟨"c1", "bash", "x"⟩, ⟨"c2", "bash", "y"⟩], 1, 1, "tool-calls"⟩
  | 1 => ⟨["Redirected"], [], 1, 1, "stop"⟩
  | _ => ⟨[], [], 0, 0, "stop"⟩

/-- Scenario environment: the steering queue is drained non-empty at the
third getSteeringMessages invocation (drain point 2 before the second call);
no tool_call listeners are registered, so every decision is undefined. -/
def steeringEnv : LoopEnv :=
  { script := steeringScript, tools := [bashTool], hasSteer := true, hasFollowUp := true,
    steer := fun n => if n == 2 then [steerMsg] else [], followUp := fun _ => [],
    dec := fun _ => ToolCallDecision.undef, signal := false }

/-- The loop run of the drain-point-2 scenario. -/
def steeringLoop : LoopState := loopRun steeringEnv 10 [userText "Go"]

/-- The session run of the drain-point-2 scenario. -/
def steeringSession : SessionState :=
  sessionRun initialSessionState [userText "Go"] steeringLoop

/-- C1 (code behaviour at the failing input): when steering is drained at
drain point 2, the session flushes the pending steering message as soon as the
first tool_result event arrives, so in the entry log the steering entry (index
2, right after the assistant entry) precedes both tool-result entries (indices
3 and 4) — while in the loop's messages array the same steering message is
appended only after all tool results, as the spec describes. -/
theorem steering_entry_precedes_tool_results :
    steeringSession.entries.map entryRole
        = ["user", "assistant", "user", "tool", "tool", "assistant"]
      ∧ ((steeringSession.entries.get? 2).bind SessionEntry.msg) = some steerMsg
      ∧ steeringLoop.messages.map ModelMessage.role
        = ["user", "assistant", "tool", "tool", "user", "assistant"] := by
  refine ⟨by decide, by decide, by decide⟩

/-- Environment of the cancellation scenario: the signal is already set. -/
def abortedEnv : LoopEnv :=
  { script := steeringScript, tools := [bashTool], hasSteer := true, hasFollowUp := true,
    steer := fun _ => [], followUp := fun _ => [],
    dec := fun _ => ToolCallDecision.undef, signal := true }

/-- C2 (counterexample): the cancellation token fires before the loop runs at
all, the generator ends cleanly — and the session still emits turn_end, so
"no turn_end is emitted on cancellation" is false on the code. -/
theorem turn_end_emitted_despite_cancellation :
    (sessionRun initialSessionState [userText "Hi"] (loopRun abortedEnv 10 [userText "Hi"])).events
        = [SessionEvent.message (userText "Hi"),
           SessionEvent.turnEnd [userText "Hi"] ""]
      ∧ ((sessionRun initialSessionState [userText "Hi"]
          (loopRun abortedEnv 10 [userText "Hi"])).events.any isTurnEnd) = true := by
  refine ⟨by decide, by decide⟩

theorem emitSession_events (st : SessionState) (e : SessionEvent) :
    (emitSession st e).events = st.events ++ [e] := rfl

theorem flushMsg_events (st : SessionState) (m : ModelMessage) :
    (flushMsg st m).events = st.events ++ [SessionEvent.message m] := rfl

theorem foldl_flushMsg_events :
    ∀ (msgs : List ModelMessage) (st : SessionState),
      ((msgs.foldl flushMsg st).events) = st.events ++ msgs.map SessionEvent.message := by
  intro msgs
  induction msgs with
  | nil => intro st; simp
  | cons m rest ih =>
    intro st
    rw [List.foldl_cons, ih, flushMsg_events, List.map_cons]
    simp [List.append_assoc]

theorem dispatchEvent_events (st : SessionState) (e : LoopEvent) :
    (dispatchEvent st e).events = st.events ++ [sessionEventOf e] := by
  cases e with
  | textDelta d => rfl
  | message m =>
    simp only [dispatchEvent, sessionEventOf]
    split <;> rfl
  | toolCall cid nm a => rfl
  | toolResult cid nm res isErr tm => rfl
  | step uin uout fr => rfl

theorem isTurnEnd_sessionEventOf (e : LoopEvent) : isTurnEnd (sessionEventOf e) = false := by
  cases e <;> rfl

theorem traceFold_events_no_turnEnd :
    ∀ (trace : List YieldItem) (st : SessionState),
      ∃ tail,
        ((trace.foldl (fun acc item =>
            dispatchEvent (item.drained.foldl flushMsg acc) item.event) st).events)
            = st.events ++ tail
          ∧ ∀ e ∈ tail, isTurnEnd e = false := by
  intro trace
  induction trace with
  | nil => intro st; exact ⟨[], by simp, by simp⟩
  | cons item rest ih =>
    intro st
    rw [List.foldl_cons]
    obtain ⟨tail2, h2, hno2⟩ := ih (dispatchEvent (item.drained.foldl flushMsg st) item.event)
    refine ⟨item.drained.map SessionEvent.message ++ ([sessionEventOf item.event] ++ tail2),
      ?_, ?_⟩
    · rw [h2, dispatchEvent_events, foldl_flushMsg_events]
      simp [List.append_assoc]
    · intro e he
      rcases List.mem_append.mp he with hm | hr
      · obtain ⟨m, -, rfl⟩ := List.mem_map.mp hm
        rfl
      · rcases List.mem_append.mp hr with hev | ht
        · rw [List.mem_singleton.mp hev]
          exact isTurnEnd_sessionEventOf item.event
        · exact hno2 e ht

/-- C2 (amended): when the cancellation token is set the generator ends with
no yields and nothing left to flush; a generator run that completes is exactly
the success branch of runLoop — the session's final event is turn_end and the
latch resolves; and when an awaited gen.next rejects (an error propagating
out of the loop, e.g. an abort error from the model), the latch rejects with
that error and no turn_end is emitted during the run. -/
theorem cancellation_turn_end_settles
    (env : LoopEnv) (maxSteps : Nat) (msgs : List ModelMessage)
    (st0 : SessionState) (initial : List ModelMessage) (lr : LoopState)
    (trace : List YieldItem) (err : String) :
    (env.signal = true →
        (loopRun env maxSteps msgs).trace = [] ∧ (loopRun env maxSteps msgs).pendingDrain = [])
      ∧ sessionRunWith st0 initial (GenOutcome.done lr.trace lr.pendingDrain)
          = (sessionRun st0 initial lr, LatchResult.resolved)
      ∧ (sessionRun st0 initial lr).events.getLast?
        = some (SessionEvent.turnEnd
            ((initial.foldl flushMsg st0
              |> fun st => lr.trace.foldl
                  (fun acc item => dispatchEvent (item.drained.foldl flushMsg acc) item.event) st
              |> fun st => lr.pendingDrain.foldl flushMsg st).turnMessages)
            ((initial.foldl flushMsg st0
              |> fun st => lr.trace.foldl
                  (fun acc item => dispatchEvent (item.drained.foldl flushMsg acc) item.event) st
              |> fun st => lr.pendingDrain.foldl flushMsg st).lastText))
      ∧ (sessionRunWith st0 initial (GenOutcome.thrown trace err)).2 = LatchResult.rejected err
      ∧ ∃ tail,
          (sessionRunWith st0 initial (GenOutcome.thrown trace err)).1.events
              = st0.events ++ tail
            ∧ ∀ e ∈ tail, isTurnEnd e = false := by
  refine ⟨?_, rfl, ?_, rfl, ?_⟩
  · intro hsig
    unfold loopRun
    cases maxSteps with
    | zero => exact ⟨rfl, rfl⟩
    | succ n => rw [loopSteps]; simp [hsig]
  · unfold sessionRun emitSession
    simp [List.getLast?_concat]
  · obtain ⟨tail2, h2, hno2⟩ :=
      traceFold_events_no_turnEnd trace (initial.foldl flushMsg st0)
    refine ⟨initial.map SessionEvent.message ++ (tail2 ++ [SessionEvent.error err]), ?_, ?_⟩
    · have hev : (sessionRunWith st0 initial (GenOutcome.thrown trace err)).1.events
          = ((trace.foldl (fun acc item =>
                dispatchEvent (item.drained.foldl flushMsg acc) item.event)
              (initial.foldl flushMsg st0)).events) ++ [SessionEvent.error err] := rfl
      rw [hev, h2, foldl_flushMsg_events]
      simp [List.append_assoc]
    · intro e he
      rcases List.mem_append.mp he with hm | hr
      · obtain ⟨m, -, rfl⟩ := List.mem_map.mp hm
        rfl
      · rcases List.mem_append.mp hr with ht | herr
        · exact hno2 e ht
        · rw [List.mem_singleton.mp herr]
          rfl

/-- Witness for the amended C2: the aborted environment yields no events, and
a generator rejecting with an abort error leaves the latch rejected. -/
theorem cancellation_turn_end_settles_witness :
    ((loopRun abortedEnv 10 [userText "Hi"]).trace = []
        ∧ (loopRun abortedEnv 10 [userText "Hi"]).pendingDrain = [])
      ∧ (sessionRunWith initialSessionState [userText "Hi"]
            (GenOutcome.thrown [] "AbortError")).2
          = LatchResult.rejected "AbortError" :=
  ⟨(cancellation_turn_end_settles abortedEnv 10 [userText "Hi"] initialSessionState []
      (loopRun abortedEnv 10 [userText "Hi"]) [] "AbortError").1 rfl,
   (cancellation_turn_end_settles abortedEnv 10 [userText "Hi"] initialSessionState
      [userText "Hi"] (loopRun abortedEnv 10 [userText "Hi"]) []
      "AbortError").2.2.2.1⟩

/-- Script of the unknown-tool scenario: one call to an unregistered tool,
then a plain text reply. -/
def unknownToolScript : Nat → ModelResponse
  | 0 => ⟨[], [⟨"c1", "nope", "x"⟩], 1, 1, "tool-calls"⟩
  | 1 => ⟨["done"], [], 1, 1, "stop"⟩
  | _ => ⟨[], [], 0, 0, "stop"⟩

/-- Environment of the unknown-tool scenario: no tools registered. -/
def unknownToolEnv : LoopEnv :=
  { script := unknownToolScript, tools := [], hasSteer := false, hasFollowUp := false,
    steer := fun _ => [], followUp := fun _ => [],
    dec := fun _ => ToolCallDecision.undef, signal := false }

/-- C3 (counterexample): in the step calling the unregistered tool, no
tool_call event is yielded yet one tool_result is, so the two multisets of
callIds differ. -/
theorem tool_call_result_multiset_counterexample :
    ¬ ((((loopRun unknownToolEnv 10 [userText "Go"]).trace.map YieldItem.event).filterMap
          toolCallIdOf : Multiset String)
        = (((loopRun unknownToolEnv 10 [userText "Go"]).trace.map YieldItem.event).filterMap
          toolResultIdOf : Multiset String)) := by
  decide

/-! ## Claims about resumeSession -/

theorem entry_error_ne_session_error (l id : String) :
    ("Entry not found: " ++ l) ≠ ("Session not found: " ++ id) := by
  intro h
  have hd : ("Entry not found: " ++ l).data = ("Session not found: " ++ id).data := by rw [h]
  rw [String.data_append, String.data_append] at hd
  have h1 : ("Entry not found: ").data = 'E' :: "ntry not found: ".data := rfl
  have h2 : ("Session not found: ").data = 'S' :: "ession not found: ".data := rfl
  rw [h1, h2] at hd
  simp at hd

/-- The C8 claim, stated from the spec's words: the Session-not-found error
iff the store loads nothing and exists is false; the Entry-not-found error iff
a leafId was supplied that is no loaded entry's id; otherwise the session's
leaf is the supplied leafId, else the last loaded entry's id, else null. -/
def resumeSessionClaim (loaded : List SessionEntry) (storeExists : Bool) (id : String)
    (optsLeafId : Option String) : Prop :=
  (resumeSession loaded storeExists id optsLeafId = Except.error ("Session not found: " ++ id)
      ↔ (loaded = [] ∧ storeExists = false))
    ∧ (∀ l, optsLeafId = some l →
        (resumeSession loaded storeExists id optsLeafId = Except.error ("Entry not found: " ++ l)
          ↔ (∀ e ∈ loaded, ¬ e.id = l)))
    ∧ ((¬ (loaded = [] ∧ storeExists = false)) →
        (∀ l, optsLeafId = some l → (∃ e ∈ loaded, e.id = l) →
            resumeSession loaded storeExists id optsLeafId = Except.ok (some l))
          ∧ (optsLeafId = none →
              resumeSession loaded storeExists id optsLeafId
                = Except.ok (loaded.getLast?.map SessionEntry.id)))

/-- C8 (counterexample): with an empty store and a supplied missing leafId the
code throws Session-not-found, but the claim's iff insists on Entry-not-found;
the claim is false at this input. -/
theorem resumeSessionClaim_counterexample :
    ¬ resumeSessionClaim [] false "s" (some "x") := by
  intro h
  have h2 := (h.2.1 "x" rfl).mpr (by simp)
  have h3 : resumeSession [] false "s" (some "x")
      = Except.error ("Session not found: " ++ "s") := rfl
  rw [h3] at h2
  injection h2 with hmsg
  exact entry_error_ne_session_error "x" "s" hmsg.symm

/-- C8 (amended): resumeSession throws "Session not found: {id}" iff the store
loads zero entries and exists is false; it throws "Entry not found: {leafId}"
iff that is not the case and leafId is supplied, non-empty, and no loaded
entry's id (the guard is a JS truthiness test, so a supplied empty string
never triggers it); otherwise the session is built with leaf = the supplied
leafId, else the last loaded entry's id, else null. -/
theorem resumeSession_spec
    (loaded : List SessionEntry) (storeExists : Bool) (id : String) (ol : Option String) :
    (resumeSession loaded storeExists id ol = Except.error ("Session not found: " ++ id)
        ↔ (loaded = [] ∧ storeExists = false))
      ∧ (∀ l, ol = some l →
          (resumeSession loaded storeExists id ol = Except.error ("Entry not found: " ++ l)
            ↔ (¬ (loaded = [] ∧ storeExists = false) ∧ l ≠ "" ∧ ∀ e ∈ loaded, ¬ e.id = l)))
      ∧ ((¬ (loaded = [] ∧ storeExists = false)) →
          (∀ l, ol = some l → (l = "" ∨ ∃ e ∈ loaded, e.id = l) →
              resumeSession loaded storeExists id ol = Except.ok (some l))
            ∧ (ol = none →
                resumeSession loaded storeExists id ol
                  = Except.ok (loaded.getLast?.map SessionEntry.id))) := by
  by_cases hsnf : loaded = [] ∧ storeExists = false
  · have hct : (loaded.length == 0 && !storeExists) = true := by
      simp [hsnf.1, hsnf.2]
    have hr : resumeSession loaded storeExists id ol
        = Except.error ("Session not found: " ++ id) := by
      unfold resumeSession
      rw [if_pos hct]
    refine ⟨?_, ?_, ?_⟩
    · rw [hr]; simp [hsnf]
    · intro l hol
      rw [hr]
      constructor
      · intro hcontra
        injection hcontra with hmsg
        exact absurd hmsg.symm (entry_error_ne_session_error l id)
      · rintro ⟨hns, -, -⟩
        exact absurd hsnf hns
    · intro hns
      exact absurd hsnf hns
  · have hcf : (loaded.length == 0 && !storeExists) = false := by
      cases hct : (loaded.length == 0 && !storeExists)
      · rfl
      · exfalso
        apply hsnf
        simpa [List.length_eq_zero] using hct
    cases ol with
    | none =>
      have hr : resumeSession loaded storeExists id none
          = Except.ok (loaded.getLast?.map SessionEntry.id) := by
        simp only [resumeSession, resumeLeaf, hcf, Bool.false_eq_true, if_false]
      refine ⟨?_, ?_, ?_⟩
      · rw [hr]
        constructor
        · intro hcontra; exact absurd hcontra (by simp)
        · intro hsnf'; exact absurd hsnf' hsnf
      · intro l hol
        exact absurd hol (by simp)
      · intro _
        exact ⟨fun l hol _ => absurd hol (by simp), fun _ => hr⟩
    | some l0 =>
      by_cases hg : (!(l0 == "") && !(loaded.any fun e => e.id == l0)) = true
      · have hr : resumeSession loaded storeExists id (some l0)
            = Except.error ("Entry not found: " ++ l0) := by
          simp only [resumeSession, resumeLeaf, hcf, Bool.false_eq_true, if_false, hg, if_true]
        have hg1 : l0 ≠ "" := by
          intro hl0
          subst hl0
          simp at hg
        have hg2 : ∀ e ∈ loaded, ¬ e.id = l0 := by
          intro e he hid
          have hany : (loaded.any fun e => e.id == l0) = true :=
            List.any_eq_true.mpr ⟨e, he, by simp [hid]⟩
          rw [hany] at hg
          simp at hg
        refine ⟨?_, ?_, ?_⟩
        · rw [hr]
          constructor
          · intro hcontra
            injection hcontra with hmsg
            exact absurd hmsg (entry_error_ne_session_error l0 id)
          · intro hsnf'; exact absurd hsnf' hsnf
        · intro l hol
          injection hol with hl
          subst hl
          rw [hr]
          constructor
          · intro _; exact ⟨hsnf, hg1, hg2⟩
          · intro _; rfl
        · intro _
          constructor
          · intro l hol hex
            injection hol with hl
            subst hl
            rcases hex with he | ⟨e, he, hid⟩
            · exact absurd he hg1
            · exact absurd hid (hg2 e he)
          · intro hcontra; exact absurd hcontra (by simp)
      · have hgf : (!(l0 == "") && !(loaded.any fun e => e.id == l0)) = false := by
          cases hb : (!(l0 == "") && !(loaded.any fun e => e.id == l0))
          · rfl
          · exact absurd hb hg
        have hr : resumeSession loaded storeExists id (some l0) = Except.ok (some l0) := by
          simp only [resumeSession, resumeLeaf, hcf, Bool.false_eq_true, if_false, hgf]
        have hg' : l0 = "" ∨ ∃ e ∈ loaded, e.id = l0 := by
          by_cases hb1 : (l0 == "") = true
          · left; simpa using hb1
          · right
            have hb1' : (!(l0 == "")) = true := by
              simp only [Bool.not_eq_true']
              simpa using hb1
            have hb2 : (loaded.any fun e => e.id == l0) = true := by
              cases hb : loaded.any fun e => e.id == l0
              · rw [hb1', hb] at hgf
                simp at hgf
              · rfl
            obtain ⟨e, he, hid⟩ := List.any_eq_true.mp hb2
            exact ⟨e, he, by simpa using hid⟩
        refine ⟨?_, ?_, ?_⟩
        · rw [hr]
          constructor
          · intro hcontra; exact absurd hcontra (by simp)
          · intro hsnf'; exact absurd hsnf' hsnf
        · intro l hol
          injection hol with hl
          subst hl
          rw [hr]
          constructor
          · intro hcontra; exact absurd hcontra (by simp)
          · rintro ⟨-, hne, hall⟩
            rcases hg' with h | ⟨e, he, hid⟩
            · exact absurd h hne
            · exact absurd hid (hall e he)
        · intro _
          constructor
          · intro l hol _
            injection hol with hl
            subst hl
            exact hr
          · intro hcontra; exact absurd hcontra (by simp)

/-- Witness for the amended C8: a store with one entry, an existing session,
and a matching supplied leafId resumes with that leaf. -/
theorem resumeSession_spec_witness :
    resumeSession [SessionEntry.message "a" none 0 (userText "hi")] true "s" (some "a")
      = Except.ok (some "a") :=
  ((resumeSession_spec [SessionEntry.message "a" none 0 (userText "hi")] true "s"
      (some "a")).2.2 (by simp)).1 "a" rfl
    (Or.inr ⟨SessionEntry.message "a" none 0 (userText "hi"), by simp, rfl⟩)
